import Mathlib

/-!
Verification of the keystone JSON assignment overlay driver
(src/keystone_json_assignment/json.py).

The driver subclasses the SQL assignment backend.  We shallowly embed it:
the host framework (identity, resource, role and id-mapping managers, and
the underlying SQL driver) is an abstract environment of pure functions,
the plugin instance is an explicit state record, and each overridden
method is a Lean function from state and arguments to a result paired with
the (possibly updated) state.  Exceptions of the two-outcome method
`check_grant_role_id` are a two-constructor inductive; lookups that may
raise `UserNotFound` / `ProjectNotFound` return `Option`.
-/

namespace KJA

/-- The user-project map attribute: an association list from user public
ids to the key list of the per-user project-id dict, in insertion order
(Python dict semantics). -/
abbrev UPMap := List (String × List String)

/-- The project-name-to-id cache (`projectidcache`), an association list in
insertion order. -/
abbrev PCache := List (String × String)

/-- A role record as returned by the role manager: only the fields the
plugin reads. -/
structure Role where
  id : String
  name : String
deriving DecidableEq, Repr

/-- Outcome of `check_grant_role_id`: the method either returns `None` or
raises `keystone.exception.RoleAssignmentNotFound`. -/
inductive CheckResult where
  | raisesRoleAssignmentNotFound
  | returnsNone
deriving DecidableEq, Repr

/-- A synthetic role-assignment record, with exactly the three keys the
plugin writes in `list_role_assignments`. -/
structure AssignmentRecord where
  role_id : String
  user_id : String
  project_id : String
deriving DecidableEq, Repr

/-- The host framework environment used during construction:
configuration options and the managers set up by `_setup_managers`,
modelled as pure functions.  `get_user_by_name` returns the local id of a
user or `none` when it raises `UserNotFound`; `get_public_id` maps a local
id to the public id (or `none` when the id-mapping has no entry);
`get_project_by_name` resolves a project name in the default domain or
`none` on `ProjectNotFound`; `get_domain_project` resolves the domain name
to the acting domain project; `roles` is the role backend's store, which
`list_roles` filters by the name hint. -/
structure Env where
  default_roles : List String
  ldap_domain_name : String
  roles : List Role
  get_user_by_name : String → Option String
  get_public_id : String → Option String
  get_project_by_name : String → Option String
  get_domain_project : String → Option String

/-- The underlying SQL assignment driver (the superclass), one abstract
pure function per method the plugin calls via `super()`.  `W` is the
result type of the write methods, passed through untouched. -/
structure SqlDriver (W : Type) where
  list_grant_role_ids : Option String → Option String → Option String → Option String →
    Bool → List String
  check_grant_role_id : String → Option String → Option String → Option String →
    Option String → Bool → CheckResult
  list_role_assignments : Option String → Option String → Option (List String) →
    Option String → Option (List String) → Option Bool → List AssignmentRecord
  add_role_to_user_and_project : String → String → String → W
  remove_role_from_user_and_project : String → String → String → W
  create_grant : String → Option String → Option String → Option String →
    Option String → Bool → W
  delete_grant : String → Option String → Option String → Option String →
    Option String → Bool → W
  delete_project_assignments : String → W
  delete_role_assignments : String → W
  delete_user_assignments : String → W
  delete_group_assignments : String → W
  delete_domain_assignments : String → W

/-- The plugin instance state set up by `__init__`: the attributes the
overridden methods read. -/
structure AssignState where
  domain_name : String
  domain_id : String
  role_id : String
  userprojectmap : UPMap
deriving DecidableEq, Repr

/-- `Assignment._get_role_id`: take the first configured default role
name, filter the role backend by that name, and return the id of the
first match.  `none` models the `IndexError` raised when the
configuration list or the filtered role list is empty. -/
def get_role_id (env : Env) : Option String :=
  match env.default_roles.head? with
  | none => none
  | some role_name =>
    match (env.roles.filter (fun r => r.name = role_name)).head? with
    | none => none
    | some r => some r.id

/-- `Assignment._get_user_id`: look the username up in the domain-specific
identity backend (`none` = `UserNotFound`, logged and swallowed), then map
the local id to the public id. -/
def get_user_id (env : Env) (user_name : String) : Option String :=
  match env.get_user_by_name user_name with
  | none => none
  | some local_id => env.get_public_id local_id

/-- Python dict-key insertion `m[k] = v`: overwrite in place when the key
exists, append otherwise. -/
def insertEntry (m : UPMap) (k : String) (v : List String) : UPMap :=
  if m.any (fun e => e.1 = k) then
    m.map (fun e => if e.1 = k then (k, v) else e)
  else
    m ++ [(k, v)]

/-- Key insertion into the per-user project-id dict
(`projectids[projectid] = 1`): the key list gains `p` at the end unless
already present. -/
def insertProj (ps : List String) (p : String) : List String :=
  if ps.contains p then ps else ps ++ [p]

/-- The inner loop of `__init__` over one user's project-name list.
`prev` is the current value of the `projectid` variable (it is NOT reset
between names: on `ProjectNotFound` it keeps the previous name's value);
`cache` is `projectidcache`, consulted first and extended on a successful
DB fetch; `acc` is the key list of `projectids`.  A truthy `projectid` is
recorded (`if projectid:` is false for `None` and for the empty
string). -/
def buildProjectIds (env : Env) : List String → Option String → PCache → List String →
    (List String × PCache)
  | [], _, cache, acc => (acc, cache)
  | projectname :: rest, prev, cache, acc =>
    let fetched : Option String × PCache :=
      match cache.find? (fun e => e.1 = projectname) with
      | some e => (some e.2, cache)
      | none =>
        match env.get_project_by_name projectname with
        | some pid => (some pid, cache ++ [(projectname, pid)])
        | none => (prev, cache)
    let acc' : List String :=
      match fetched.1 with
      | some pid => if pid = "" then acc else insertProj acc pid
      | none => acc
    buildProjectIds env rest fetched.1 fetched.2 acc'

/-- The outer loop of `__init__` over the parsed map file: resolve each
username (skip the entry when the id is `None` or falsy), build its
project-id set, and store it under the public id. -/
def buildUPM (env : Env) : List (String × List String) → UPMap → PCache → (UPMap × PCache)
  | [], m, cache => (m, cache)
  | (user, projectnames) :: rest, m, cache =>
    match get_user_id env user with
    | none => buildUPM env rest m cache
    | some user_id =>
      if user_id = "" then
        buildUPM env rest m cache
      else
        let built := buildProjectIds env projectnames none cache []
        buildUPM env rest (insertEntry m user_id built.1) built.2

/-- `Assignment.__init__` given the parsed content of
`/etc/keystone/user-project-map.json` as an association list: resolve the
acting domain and the default role id (failure of either aborts
construction), then build the user-project map.  Returns the constructed
instance state. -/
def construct (env : Env) (file : List (String × List String)) : Option AssignState :=
  match env.get_domain_project env.ldap_domain_name with
  | none => none
  | some domain_id =>
    match get_role_id env with
    | none => none
    | some role_id =>
      some { domain_name := env.ldap_domain_name
             domain_id := domain_id
             role_id := role_id
             userprojectmap := (buildUPM env file [] []).1 }

/-- Python `user_id in self.userprojectmap` (no key is `None`, so a `None`
probe is never a member). -/
def memUser (st : AssignState) : Option String → Bool
  | none => false
  | some u => st.userprojectmap.any (fun e => e.1 = u)

/-- Python `project_id in self.userprojectmap[user_id]`, evaluated under
`user_id in self.userprojectmap`. -/
def memProject (st : AssignState) (user_id project_id : Option String) : Bool :=
  match user_id with
  | none => false
  | some u =>
    match st.userprojectmap.find? (fun e => e.1 = u) with
    | none => false
    | some e =>
      match project_id with
      | none => false
      | some p => e.2.contains p

namespace Assignment

/-- `Assignment.list_grant_role_ids`: list the SQL driver's role ids and
append the default role id when the user is in the map and the project in
the user's set. -/
def list_grant_role_ids {W : Type} (st : AssignState) (sql : SqlDriver W)
    (user_id group_id domain_id project_id : Option String)
    (inherited_to_projects : Bool) : List String × AssignState :=
  let role_ids := sql.list_grant_role_ids user_id group_id domain_id project_id
    inherited_to_projects
  if memUser st user_id && memProject st user_id project_id then
    (role_ids ++ [st.role_id], st)
  else
    (role_ids, st)

/-- `Assignment.check_grant_role_id`: delegate; when the SQL driver raises
`RoleAssignmentNotFound`, swallow it exactly when the queried role is the
default role, the user is in the map and the project in the user's set,
and re-raise otherwise. -/
def check_grant_role_id {W : Type} (st : AssignState) (sql : SqlDriver W)
    (role_id : String) (user_id group_id domain_id project_id : Option String)
    (inherited_to_projects : Bool) : CheckResult × AssignState :=
  match sql.check_grant_role_id role_id user_id group_id domain_id project_id
    inherited_to_projects with
  | CheckResult.returnsNone => (CheckResult.returnsNone, st)
  | CheckResult.raisesRoleAssignmentNotFound =>
    if role_id ≠ st.role_id then (CheckResult.raisesRoleAssignmentNotFound, st)
    else if ¬ memUser st user_id then (CheckResult.raisesRoleAssignmentNotFound, st)
    else if ¬ memProject st user_id project_id then
      (CheckResult.raisesRoleAssignmentNotFound, st)
    else (CheckResult.returnsNone, st)

/-- `Assignment.list_role_assignments`: the SQL driver's assignments,
then, for every user of the map and every project of that user, append a
synthetic record with the default role id. -/
def list_role_assignments {W : Type} (st : AssignState) (sql : SqlDriver W)
    (role_id user_id : Option String) (group_ids : Option (List String))
    (domain_id : Option String) (project_ids : Option (List String))
    (inherited_to_projects : Option Bool) : List AssignmentRecord × AssignState :=
  let role_assignments := sql.list_role_assignments role_id user_id group_ids
    domain_id project_ids inherited_to_projects
  let role_assignments := st.userprojectmap.foldl
    (fun acc e => e.2.foldl
      (fun acc2 p => acc2 ++ [{ role_id := st.role_id, user_id := e.1, project_id := p }])
      acc)
    role_assignments
  (role_assignments, st)

/-- `Assignment.add_role_to_user_and_project`: forwarded to the SQL driver. -/
def add_role_to_user_and_project {W : Type} (st : AssignState) (sql : SqlDriver W)
    (user_id tenant_id role_id : String) : W × AssignState :=
  (sql.add_role_to_user_and_project user_id tenant_id role_id, st)

/-- `Assignment.remove_role_from_user_and_project`: forwarded to the SQL driver. -/
def remove_role_from_user_and_project {W : Type} (st : AssignState) (sql : SqlDriver W)
    (user_id tenant_id role_id : String) : W × AssignState :=
  (sql.remove_role_from_user_and_project user_id tenant_id role_id, st)

/-- `Assignment.create_grant`: forwarded to the SQL driver. -/
def create_grant {W : Type} (st : AssignState) (sql : SqlDriver W) (role_id : String)
    (user_id group_id domain_id project_id : Option String)
    (inherited_to_projects : Bool) : W × AssignState :=
  (sql.create_grant role_id user_id group_id domain_id project_id
    inherited_to_projects, st)

/-- `Assignment.delete_grant`: forwarded to the SQL driver. -/
def delete_grant {W : Type} (st : AssignState) (sql : SqlDriver W) (role_id : String)
    (user_id group_id domain_id project_id : Option String)
    (inherited_to_projects : Bool) : W × AssignState :=
  (sql.delete_grant role_id user_id group_id domain_id project_id
    inherited_to_projects, st)

/-- `Assignment.delete_project_assignments`: forwarded to the SQL driver. -/
def delete_project_assignments {W : Type} (st : AssignState) (sql : SqlDriver W)
    (project_id : String) : W × AssignState :=
  (sql.delete_project_assignments project_id, st)

/-- `Assignment.delete_role_assignments`: forwarded to the SQL driver. -/
def delete_role_assignments {W : Type} (st : AssignState) (sql : SqlDriver W)
    (role_id : String) : W × AssignState :=
  (sql.delete_role_assignments role_id, st)

/-- `Assignment.delete_user_assignments`: forwarded to the SQL driver. -/
def delete_user_assignments {W : Type} (st : AssignState) (sql : SqlDriver W)
    (user_id : String) : W × AssignState :=
  (sql.delete_user_assignments user_id, st)

/-- `Assignment.delete_group_assignments`: forwarded to the SQL driver. -/
def delete_group_assignments {W : Type} (st : AssignState) (sql : SqlDriver W)
    (group_id : String) : W × AssignState :=
  (sql.delete_group_assignments group_id, st)

/-- `Assignment.delete_domain_assignments`: forwarded to the SQL driver. -/
def delete_domain_assignments {W : Type} (st : AssignState) (sql : SqlDriver W)
    (domain_id : String) : W × AssignState :=
  (sql.delete_domain_assignments domain_id, st)

end Assignment

/-- The list of synthetic assignment records the map denotes, in iteration
order: one record per (user, project) pair, all carrying the default role
id. -/
def syntheticAssignments (st : AssignState) : List AssignmentRecord :=
  st.userprojectmap.foldr
    (fun e rest => e.2.map
      (fun p => { role_id := st.role_id, user_id := e.1, project_id := p }) ++ rest)
    []

/-- Association-list lookup in the user-project map. -/
def lookupUPM (m : UPMap) (u : String) : Option (List String) :=
  (m.find? (fun e => e.1 = u)).map Prod.snd

/-- The synthetic records of a map `m` under a fixed `role`, the
generalisation of `syntheticAssignments` the inductions recurse on. -/
def synthOf (role : String) (m : UPMap) : List AssignmentRecord :=
  m.foldr (fun e rest =>
    e.2.map (fun p => { role_id := role, user_id := e.1, project_id := p }) ++ rest) []

/-- The user id a map-file entry is keyed by, when any: `_get_user_id`
composed with the `if not user_id: continue` filter of `__init__` (`None`
and the empty string are falsy). -/
def effectiveUserId (env : Env) (name : String) : Option String :=
  match get_user_id env name with
  | none => none
  | some u => if u = "" then none else some u

/-- Consistency of `projectidcache` with the resource manager: every
cached binding is a successful resolution. -/
def CacheOK (env : Env) (cache : PCache) : Prop :=
  ∀ e ∈ cache, env.get_project_by_name e.1 = some e.2

/-- Claim C6 as stated: whenever construction succeeds, the map
associates, with the public id of every username key of the file that
resolves to a (truthy) user id, exactly the set of project ids the
project names listed under that username resolve to. -/
def claimC6 : Prop :=
  ∀ (env : Env) (file : List (String × List String)) (st : AssignState),
    construct env file = some st →
    ∀ name ps uid, (name, ps) ∈ file → effectiveUserId env name = some uid →
      ∃ pids, lookupUPM st.userprojectmap uid = some pids
        ∧ ∀ q, q ∈ pids ↔ ∃ n ∈ ps, env.get_project_by_name n = some q

section Fixtures

/-- A concrete plugin state for witnesses. -/
def stW : AssignState :=
  { domain_name := "ldap_users"
    domain_id := "d1"
    role_id := "r1"
    userprojectmap := [("u1", ["p1", "p2"]), ("u2", ["p1"])] }

/-- A concrete SQL driver for witnesses: one stored grant of the default
role and no stored assignments. -/
def sqlW : SqlDriver Unit :=
  { list_grant_role_ids := fun _ _ _ _ _ => ["r1"]
    check_grant_role_id := fun _ _ _ _ _ _ => CheckResult.raisesRoleAssignmentNotFound
    list_role_assignments := fun _ _ _ _ _ _ => []
    add_role_to_user_and_project := fun _ _ _ => ()
    remove_role_from_user_and_project := fun _ _ _ => ()
    create_grant := fun _ _ _ _ _ _ => ()
    delete_grant := fun _ _ _ _ _ _ => ()
    delete_project_assignments := fun _ => ()
    delete_role_assignments := fun _ => ()
    delete_user_assignments := fun _ => ()
    delete_group_assignments := fun _ => ()
    delete_domain_assignments := fun _ => () }

/-- A concrete environment for construction witnesses: one resolvable
user `alice` (public id `u1`) and one resolvable project `proj` (`p1`). -/
def envW : Env :=
  { default_roles := ["Member"]
    ldap_domain_name := "ldap_users"
    roles := [{ id := "r1", name := "Member" }]
    get_user_by_name := fun n => if n = "alice" then some "la" else none
    get_public_id := fun l => if l = "la" then some "u1" else none
    get_project_by_name := fun n => if n = "proj" then some "p1" else none
    get_domain_project := fun n => if n = "ldap_users" then some "d1" else none }

/-- The state `construct envW [("alice", ["proj"])]` produces. -/
def stC : AssignState :=
  { domain_name := "ldap_users"
    domain_id := "d1"
    role_id := "r1"
    userprojectmap := [("u1", ["p1"])] }

/-- An environment in which the distinct usernames `a` and `b` both
resolve to the public id `u1`. -/
def env6 : Env :=
  { default_roles := ["Member"]
    ldap_domain_name := "ldap_users"
    roles := [{ id := "r1", name := "Member" }]
    get_user_by_name := fun n =>
      if n = "a" then some "l1" else if n = "b" then some "l2" else none
    get_public_id := fun _ => some "u1"
    get_project_by_name := fun n => if n = "p" then some "pid1" else none
    get_domain_project := fun _ => some "d1" }

/-- A map file whose two username keys collide on the public id under
`env6`: the later key `b` (no projects) overwrites the earlier key `a`. -/
def file6 : List (String × List String) := [("a", ["p"]), ("b", [])]

/-- The state `construct env6 file6` produces: `u1` is left with the
project set of `b`, not that of `a`. -/
def st6 : AssignState :=
  { domain_name := "ldap_users"
    domain_id := "d1"
    role_id := "r1"
    userprojectmap := [("u1", [])] }

end Fixtures

section Lemmas

lemma foldl_append_map {α β : Type} (f : α → β) :
    ∀ (l : List α) (init : List β),
      l.foldl (fun acc x => acc ++ [f x]) init = init ++ l.map f := by
  intro l
  induction l with
  | nil => intro init; simp
  | cons x xs ih => intro init; simp [List.foldl_cons, ih]

lemma nested_foldl_synth (role : String) :
    ∀ (m : UPMap) (init : List AssignmentRecord),
      m.foldl (fun acc e => e.2.foldl
          (fun acc2 p =>
            acc2 ++ [{ role_id := role, user_id := e.1, project_id := p }]) acc) init
        = init ++ m.foldr (fun e rest =>
            e.2.map (fun p => { role_id := role, user_id := e.1, project_id := p })
              ++ rest) [] := by
  intro m
  induction m with
  | nil => intro init; simp
  | cons e rest ih =>
    intro init
    simp only [List.foldl_cons, List.foldr_cons]
    rw [foldl_append_map, ih, List.append_assoc]

lemma list_role_assignments_eq {W : Type} (st : AssignState) (sql : SqlDriver W)
    (role_id user_id : Option String) (group_ids : Option (List String))
    (domain_id : Option String) (project_ids : Option (List String))
    (inherited_to_projects : Option Bool) :
    (Assignment.list_role_assignments st sql role_id user_id group_ids domain_id
        project_ids inherited_to_projects).1
      = sql.list_role_assignments role_id user_id group_ids domain_id project_ids
          inherited_to_projects ++ syntheticAssignments st := by
  unfold Assignment.list_role_assignments syntheticAssignments
  exact nested_foldl_synth st.role_id st.userprojectmap _

lemma syntheticAssignments_eq_synthOf (st : AssignState) :
    syntheticAssignments st = synthOf st.role_id st.userprojectmap := rfl

lemma mem_synthOf (role : String) (r : AssignmentRecord) :
    ∀ m : UPMap, r ∈ synthOf role m
      ↔ ∃ e ∈ m, r.role_id = role ∧ r.user_id = e.1 ∧ r.project_id ∈ e.2 := by
  intro m
  induction m with
  | nil => simp [synthOf]
  | cons e rest ih =>
    simp only [synthOf, List.foldr_cons, List.mem_append, List.mem_map] at *
    constructor
    · rintro (⟨p, hp, hr⟩ | hr)
      · exact ⟨e, List.mem_cons_self e rest, by simp [← hr, hp]⟩
      · obtain ⟨e', he', h⟩ := ih.mp hr
        exact ⟨e', List.mem_cons_of_mem e he', h⟩
    · rintro ⟨e', he', hrole, huser, hproj⟩
      rcases List.mem_cons.mp he' with h | h
      · subst h
        exact Or.inl ⟨r.project_id, hproj, by cases r; simp_all⟩
      · exact Or.inr (ih.mpr ⟨e', h, hrole, huser, hproj⟩)

lemma count_synthOf_zero (role u p : String) (m : UPMap)
    (h : u ∉ m.map Prod.fst) :
    (synthOf role m).count
        { role_id := role, user_id := u, project_id := p } = 0 := by
  apply List.count_eq_zero_of_not_mem
  intro hmem
  obtain ⟨e, he, _, huser, _⟩ := (mem_synthOf role _ m).mp hmem
  exact h (List.mem_map.mpr ⟨e, he, huser.symm⟩)

lemma count_synthOf (role u p : String) :
    ∀ m : UPMap, (m.map Prod.fst).Nodup → (∀ e ∈ m, e.2.Nodup) →
      (synthOf role m).count { role_id := role, user_id := u, project_id := p }
        = match m.find? (fun e => e.1 = u) with
          | some e => if p ∈ e.2 then 1 else 0
          | none => 0 := by
  intro m
  induction m with
  | nil => intro _ _; simp [synthOf]
  | cons e rest ih =>
    intro hkeys hproj
    simp only [List.map_cons, List.nodup_cons] at hkeys
    have hcount : (synthOf role (e :: rest)).count
          { role_id := role, user_id := u, project_id := p }
        = (e.2.map (fun q =>
              ({ role_id := role, user_id := e.1, project_id := q } :
                AssignmentRecord))).count
            { role_id := role, user_id := u, project_id := p }
          + (synthOf role rest).count
              { role_id := role, user_id := u, project_id := p } := by
      simp [synthOf, List.count_append]
    by_cases hu : e.1 = u
    · subst hu
      have hinj : Function.Injective (fun q =>
          ({ role_id := role, user_id := e.1, project_id := q } :
            AssignmentRecord)) := by
        intro a b hab
        simpa using hab
      have hmap : (e.2.map (fun q =>
            ({ role_id := role, user_id := e.1, project_id := q } :
              AssignmentRecord))).count
            { role_id := role, user_id := e.1, project_id := p }
          = e.2.count p := List.count_map_of_injective e.2 _ hinj p
      have hrest : (synthOf role rest).count
            { role_id := role, user_id := e.1, project_id := p } = 0 :=
        count_synthOf_zero role e.1 p rest hkeys.1
      have hfind : (e :: rest).find? (fun x => x.1 = e.1) = some e := by
        simp [List.find?_cons]
      rw [hcount, hmap, hrest, hfind]
      have hnd : e.2.Nodup := hproj e (List.mem_cons_self e rest)
      by_cases hp : p ∈ e.2
      · simp [List.count_eq_one_of_mem hnd hp, hp]
      · simp [List.count_eq_zero_of_not_mem hp, hp]
    · have hmap : (e.2.map (fun q =>
            ({ role_id := role, user_id := e.1, project_id := q } :
              AssignmentRecord))).count
            { role_id := role, user_id := u, project_id := p } = 0 := by
        apply List.count_eq_zero_of_not_mem
        intro hmem
        obtain ⟨q, _, habs⟩ := List.mem_map.mp hmem
        exact hu (congrArg AssignmentRecord.user_id habs)
      have hfind : (e :: rest).find? (fun x => x.1 = u)
          = rest.find? (fun x => x.1 = u) := by
        simp [List.find?_cons, hu]
      rw [hcount, hmap, hfind, Nat.zero_add]
      exact ih hkeys.2 (fun x hx => hproj x (List.mem_cons_of_mem e hx))

end Lemmas

section ConstructionLemmas

lemma mem_insertProj (ps : List String) (p q : String) :
    q ∈ insertProj ps p ↔ q ∈ ps ∨ q = p := by
  unfold insertProj
  by_cases h : ps.contains p = true
  · have hp : p ∈ ps := List.elem_iff.mp h
    rw [if_pos h]
    constructor
    · exact Or.inl
    · rintro (hq | rfl)
      · exact hq
      · exact hp
  · rw [if_neg h]
    simp

lemma self_mem_insertProj (ps : List String) (p : String) : p ∈ insertProj ps p :=
  (mem_insertProj ps p p).mpr (Or.inr rfl)

lemma insertProj_of_mem (ps : List String) (p : String) (h : p ∈ ps) :
    insertProj ps p = ps := by
  unfold insertProj
  rw [if_pos (List.elem_iff.mpr h)]

lemma cacheOK_append (env : Env) (cache : PCache) (n p : String)
    (hc : CacheOK env cache) (hres : env.get_project_by_name n = some p) :
    CacheOK env (cache ++ [(n, p)]) := by
  intro e he
  rcases List.mem_append.mp he with h | h
  · exact hc e h
  · rw [List.mem_singleton] at h
    subst h
    exact hres

lemma effectiveUserId_some (env : Env) (name uid : String)
    (h : effectiveUserId env name = some uid) :
    get_user_id env name = some uid ∧ uid ≠ "" := by
  unfold effectiveUserId at h
  cases hg : get_user_id env name with
  | none => rw [hg] at h; exact absurd h (by simp)
  | some u =>
    rw [hg] at h
    have h' : (if u = "" then none else some u : Option String) = some uid := h
    by_cases hu : u = ""
    · rw [if_pos hu] at h'
      exact absurd h' (by simp)
    · rw [if_neg hu] at h'
      injection h' with h''
      subst h''
      exact ⟨rfl, hu⟩

lemma buildProjectIds_spec (env : Env)
    (hne : ∀ n p, env.get_project_by_name n = some p → p ≠ "") :
    ∀ (names : List String) (prev : Option String) (cache : PCache) (acc : List String),
      CacheOK env cache →
      (∀ q, prev = some q → q = "" ∨ q ∈ acc) →
      (∀ q, q ∈ (buildProjectIds env names prev cache acc).1
        ↔ q ∈ acc ∨ ∃ n ∈ names, env.get_project_by_name n = some q)
      ∧ CacheOK env (buildProjectIds env names prev cache acc).2 := by
  intro names
  induction names with
  | nil =>
    intro prev cache acc hc _
    exact ⟨fun q => by simp [buildProjectIds], by simpa [buildProjectIds] using hc⟩
  | cons name rest ih =>
    intro prev cache acc hc hprev
    cases hfind : cache.find? (fun e => e.1 = name) with
    | some e =>
      have hpe : e.1 = name := by simpa using List.find?_some hfind
      have hres : env.get_project_by_name name = some e.2 :=
        hpe ▸ hc e (List.mem_of_find?_eq_some hfind)
      have hne2 : e.2 ≠ "" := hne name e.2 hres
      have hstep : buildProjectIds env (name :: rest) prev cache acc
          = buildProjectIds env rest (some e.2) cache (insertProj acc e.2) := by
        simp [buildProjectIds, hfind, hne2]
      rw [hstep]
      obtain ⟨hmem, hc'⟩ := ih (some e.2) cache (insertProj acc e.2) hc
        (fun q hq => by injection hq with hq'; exact Or.inr (hq' ▸ self_mem_insertProj acc e.2))
      refine ⟨fun q => ?_, hc'⟩
      rw [hmem q, mem_insertProj]
      constructor
      · rintro ((h | rfl) | h)
        · exact Or.inl h
        · exact Or.inr ⟨name, List.mem_cons_self name rest, hres⟩
        · obtain ⟨n, hn, hq⟩ := h
          exact Or.inr ⟨n, List.mem_cons_of_mem name hn, hq⟩
      · rintro (h | ⟨n, hn, hq⟩)
        · exact Or.inl (Or.inl h)
        · rcases List.mem_cons.mp hn with rfl | hn'
          · have : some e.2 = some q := hres.symm.trans hq
            injection this with h'
            exact Or.inl (Or.inr h'.symm)
          · exact Or.inr ⟨n, hn', hq⟩
    | none =>
      cases hres : env.get_project_by_name name with
      | some pid =>
        have hne2 : pid ≠ "" := hne name pid hres
        have hstep : buildProjectIds env (name :: rest) prev cache acc
            = buildProjectIds env rest (some pid) (cache ++ [(name, pid)])
                (insertProj acc pid) := by
          simp [buildProjectIds, hfind, hres, hne2]
        rw [hstep]
        obtain ⟨hmem, hc'⟩ := ih (some pid) (cache ++ [(name, pid)]) (insertProj acc pid)
          (cacheOK_append env cache name pid hc hres)
          (fun q hq => by injection hq with hq'; exact Or.inr (hq' ▸ self_mem_insertProj acc pid))
        refine ⟨fun q => ?_, hc'⟩
        rw [hmem q, mem_insertProj]
        constructor
        · rintro ((h | rfl) | h)
          · exact Or.inl h
          · exact Or.inr ⟨name, List.mem_cons_self name rest, hres⟩
          · obtain ⟨n, hn, hq⟩ := h
            exact Or.inr ⟨n, List.mem_cons_of_mem name hn, hq⟩
        · rintro (h | ⟨n, hn, hq⟩)
          · exact Or.inl (Or.inl h)
          · rcases List.mem_cons.mp hn with rfl | hn'
            · have : some pid = some q := hres.symm.trans hq
              injection this with h'
              exact Or.inl (Or.inr h'.symm)
            · exact Or.inr ⟨n, hn', hq⟩
      | none =>
        have htail : ∀ (prev' : Option String), (∀ q, prev' = some q → q = "" ∨ q ∈ acc) →
            (∀ q, q ∈ (buildProjectIds env rest prev' cache acc).1
              ↔ q ∈ acc ∨ ∃ n ∈ name :: rest, env.get_project_by_name n = some q)
            ∧ CacheOK env (buildProjectIds env rest prev' cache acc).2 := by
          intro prev' hprev'
          obtain ⟨hmem, hc'⟩ := ih prev' cache acc hc hprev'
          refine ⟨fun q => ?_, hc'⟩
          rw [hmem q]
          constructor
          · rintro (h | ⟨n, hn, hq⟩)
            · exact Or.inl h
            · exact Or.inr ⟨n, List.mem_cons_of_mem name hn, hq⟩
          · rintro (h | ⟨n, hn, hq⟩)
            · exact Or.inl h
            · rcases List.mem_cons.mp hn with rfl | hn'
              · exact absurd hq (by rw [hres]; simp)
              · exact Or.inr ⟨n, hn', hq⟩
        cases prev with
        | none =>
          have hstep : buildProjectIds env (name :: rest) none cache acc
              = buildProjectIds env rest none cache acc := by
            simp [buildProjectIds, hfind, hres]
          rw [hstep]
          exact htail none (fun q hq => Option.noConfusion hq)
        | some q0 =>
          by_cases hq0 : q0 = ""
          · have hstep : buildProjectIds env (name :: rest) (some q0) cache acc
                = buildProjectIds env rest (some q0) cache acc := by
              simp [buildProjectIds, hfind, hres, hq0]
            rw [hstep]
            exact htail (some q0) hprev
          · have h0 : q0 ∈ acc := by
              rcases hprev q0 rfl with h | h
              · exact absurd h hq0
              · exact h
            have hstep : buildProjectIds env (name :: rest) (some q0) cache acc
                = buildProjectIds env rest (some q0) cache acc := by
              simp [buildProjectIds, hfind, hres, hq0, insertProj_of_mem acc q0 h0]
            rw [hstep]
            exact htail (some q0) hprev

lemma find?_map_self (k : String) (v : List String) :
    ∀ m : UPMap, m.any (fun e => e.1 = k) = true →
      ((m.map (fun e => if e.1 = k then (k, v) else e)).find? (fun e => e.1 = k))
        = some (k, v) := by
  intro m
  induction m with
  | nil => intro h; simp at h
  | cons e rest ih =>
    intro h
    by_cases he : e.1 = k
    · rw [List.map_cons, if_pos he, List.find?_cons_of_pos _ (by simp)]
    · have h' : rest.any (fun x => x.1 = k) = true := by
        simp only [List.any_cons, Bool.or_eq_true] at h
        rcases h with h | h
        · exact absurd (of_decide_eq_true h) he
        · exact h
      rw [List.map_cons, if_neg he, List.find?_cons_of_neg _ (by simpa using he)]
      exact ih h'

lemma find?_append_self (k : String) (v : List String) :
    ∀ m : UPMap, m.any (fun e => e.1 = k) = false →
      ((m ++ [(k, v)]).find? (fun e => e.1 = k)) = some (k, v) := by
  intro m
  induction m with
  | nil => simp
  | cons e rest ih =>
    intro h
    simp only [List.any_cons, Bool.or_eq_false_iff] at h
    have he : ¬ e.1 = k := by simpa using h.1
    rw [List.cons_append, List.find?_cons_of_neg _ (by simpa using he)]
    exact ih h.2

lemma find?_map_ne (k : String) (v : List String) (u : String) (hku : k ≠ u) :
    ∀ m : UPMap,
      ((m.map (fun e => if e.1 = k then (k, v) else e)).find? (fun e => e.1 = u))
        = m.find? (fun e => e.1 = u) := by
  intro m
  induction m with
  | nil => rfl
  | cons e rest ih =>
    by_cases he : e.1 = k
    · have heu : ¬ e.1 = u := fun h => hku (he ▸ h)
      rw [List.map_cons, if_pos he, List.find?_cons_of_neg _ (by simpa using hku),
        List.find?_cons_of_neg _ (by simpa using heu)]
      exact ih
    · by_cases hu : e.1 = u
      · rw [List.map_cons, if_neg he, List.find?_cons_of_pos _ (by simpa using hu),
          List.find?_cons_of_pos _ (by simpa using hu)]
      · rw [List.map_cons, if_neg he, List.find?_cons_of_neg _ (by simpa using hu),
          List.find?_cons_of_neg _ (by simpa using hu)]
        exact ih

lemma find?_append_ne (k : String) (v : List String) (u : String) (hku : k ≠ u) :
    ∀ m : UPMap,
      ((m ++ [(k, v)]).find? (fun e => e.1 = u)) = m.find? (fun e => e.1 = u) := by
  intro m
  induction m with
  | nil => rw [List.nil_append, List.find?_cons_of_neg _ (by simp [hku])]
  | cons e rest ih =>
    by_cases hu : e.1 = u
    · rw [List.cons_append, List.find?_cons_of_pos _ (by simpa using hu),
        List.find?_cons_of_pos _ (by simpa using hu)]
    · rw [List.cons_append, List.find?_cons_of_neg _ (by simpa using hu),
        List.find?_cons_of_neg _ (by simpa using hu)]
      exact ih

lemma lookupUPM_insertEntry_self (m : UPMap) (k : String) (v : List String) :
    lookupUPM (insertEntry m k v) k = some v := by
  unfold insertEntry lookupUPM
  by_cases h : m.any (fun e => e.1 = k) = true
  · rw [if_pos h, find?_map_self k v m h]
    rfl
  · rw [if_neg h, find?_append_self k v m (by simp only [Bool.not_eq_true] at h; exact h)]
    rfl

lemma lookupUPM_insertEntry_ne (m : UPMap) (k : String) (v : List String) (u : String)
    (hku : k ≠ u) : lookupUPM (insertEntry m k v) u = lookupUPM m u := by
  unfold insertEntry lookupUPM
  by_cases h : m.any (fun e => e.1 = k) = true
  · rw [if_pos h, find?_map_ne k v u hku m]
  · rw [if_neg h, find?_append_ne k v u hku m]

lemma buildUPM_lookup_preserved (env : Env) (uid : String) :
    ∀ (file : List (String × List String)) (m : UPMap) (cache : PCache),
      (∀ e ∈ file, effectiveUserId env e.1 ≠ some uid) →
      lookupUPM (buildUPM env file m cache).1 uid = lookupUPM m uid := by
  intro file
  induction file with
  | nil => intro m cache _; rfl
  | cons e rest ih =>
    intro m cache hno
    obtain ⟨user, plist⟩ := e
    have hrest : ∀ x ∈ rest, effectiveUserId env x.1 ≠ some uid :=
      fun x hx => hno x (List.mem_cons_of_mem _ hx)
    cases hg : get_user_id env user with
    | none =>
      have hstep : buildUPM env ((user, plist) :: rest) m cache
          = buildUPM env rest m cache := by
        simp [buildUPM, hg]
      rw [hstep]
      exact ih m cache hrest
    | some u =>
      by_cases hu : u = ""
      · have hstep : buildUPM env ((user, plist) :: rest) m cache
            = buildUPM env rest m cache := by
          simp [buildUPM, hg, hu]
        rw [hstep]
        exact ih m cache hrest
      · have huid : u ≠ uid := by
          intro hcontra
          subst hcontra
          exact hno (user, plist) (List.mem_cons_self _ _)
            (by simp [effectiveUserId, hg, hu])
        have hstep : buildUPM env ((user, plist) :: rest) m cache
            = buildUPM env rest
                (insertEntry m u (buildProjectIds env plist none cache []).1)
                (buildProjectIds env plist none cache []).2 := by
          simp [buildUPM, hg, hu]
        rw [hstep, ih _ _ hrest, lookupUPM_insertEntry_ne m u _ uid huid]

lemma buildUPM_lookup (env : Env)
    (hne : ∀ n p, env.get_project_by_name n = some p → p ≠ "") :
    ∀ (file : List (String × List String)) (m : UPMap) (cache : PCache)
      (name : String) (ps : List String) (uid : String),
      CacheOK env cache →
      (file.map Prod.fst).Nodup →
      (name, ps) ∈ file →
      effectiveUserId env name = some uid →
      (∀ e ∈ file, e.1 ≠ name → effectiveUserId env e.1 ≠ some uid) →
      ∃ pids, lookupUPM (buildUPM env file m cache).1 uid = some pids
        ∧ ∀ q, q ∈ pids ↔ ∃ n ∈ ps, env.get_project_by_name n = some q := by
  intro file
  induction file with
  | nil =>
    intro m cache name ps uid _ _ hmem
    exact absurd hmem (List.not_mem_nil _)
  | cons e rest ih =>
    intro m cache name ps uid hc hnodup hmem huid hnocol
    obtain ⟨user, plist⟩ := e
    simp only [List.map_cons, List.nodup_cons] at hnodup
    by_cases hename : user = name
    · subst hename
      have hps : plist = ps := by
        rcases List.mem_cons.mp hmem with h | h
        · exact (congrArg Prod.snd h).symm
        · exact absurd (List.mem_map.mpr ⟨(user, ps), h, rfl⟩) hnodup.1
      subst hps
      obtain ⟨hg, hu⟩ := effectiveUserId_some env user uid huid
      have hstep : buildUPM env ((user, plist) :: rest) m cache
          = buildUPM env rest
              (insertEntry m uid (buildProjectIds env plist none cache []).1)
              (buildProjectIds env plist none cache []).2 := by
        simp [buildUPM, hg, hu]
      rw [hstep]
      have hbp := buildProjectIds_spec env hne plist none cache [] hc
        (fun q hq => Option.noConfusion hq)
      have hrest : ∀ x ∈ rest, effectiveUserId env x.1 ≠ some uid := by
        intro x hx
        apply hnocol x (List.mem_cons_of_mem _ hx)
        intro hxeq
        exact hnodup.1 (List.mem_map.mpr ⟨x, hx, hxeq⟩)
      rw [buildUPM_lookup_preserved env uid rest _ _ hrest,
        lookupUPM_insertEntry_self]
      exact ⟨_, rfl, fun q => by simpa using hbp.1 q⟩
    · have hmem' : (name, ps) ∈ rest := by
        rcases List.mem_cons.mp hmem with h | h
        · exact absurd (congrArg Prod.fst h).symm hename
        · exact h
      have hnocol' : ∀ x ∈ rest, x.1 ≠ name → effectiveUserId env x.1 ≠ some uid :=
        fun x hx => hnocol x (List.mem_cons_of_mem _ hx)
      cases hg : get_user_id env user with
      | none =>
        have hstep : buildUPM env ((user, plist) :: rest) m cache
            = buildUPM env rest m cache := by
          simp [buildUPM, hg]
        rw [hstep]
        exact ih m cache name ps uid hc hnodup.2 hmem' huid hnocol'
      | some u =>
        by_cases hu : u = ""
        · have hstep : buildUPM env ((user, plist) :: rest) m cache
              = buildUPM env rest m cache := by
            simp [buildUPM, hg, hu]
          rw [hstep]
          exact ih m cache name ps uid hc hnodup.2 hmem' huid hnocol'
        · have hstep : buildUPM env ((user, plist) :: rest) m cache
              = buildUPM env rest
                  (insertEntry m u (buildProjectIds env plist none cache []).1)
                  (buildProjectIds env plist none cache []).2 := by
            simp [buildUPM, hg, hu]
          rw [hstep]
          have hbp := buildProjectIds_spec env hne plist none cache [] hc
            (fun q hq => Option.noConfusion hq)
          exact ih _ _ name ps uid hbp.2 hnodup.2 hmem' huid hnocol'

lemma construct_elim (env : Env) (file : List (String × List String))
    (st : AssignState) (hc : construct env file = some st) :
    env.get_domain_project env.ldap_domain_name = some st.domain_id
    ∧ get_role_id env = some st.role_id
    ∧ st.domain_name = env.ldap_domain_name
    ∧ st.userprojectmap = (buildUPM env file [] []).1 := by
  unfold construct at hc
  cases hd : env.get_domain_project env.ldap_domain_name <;> rw [hd] at hc
  · exact absurd hc (by simp)
  · cases hr : get_role_id env <;> rw [hr] at hc
    · exact absurd hc (by simp)
    · injection hc with h
      subst h
      exact ⟨rfl, rfl, rfl, rfl⟩

end ConstructionLemmas

section ReadTheorems

/-- Claim C1: `check_grant_role_id` raises `RoleAssignmentNotFound` exactly
when the underlying SQL driver's check raises it for the same arguments and
it is not the case that the queried role id equals the default role id, the
user is a key of the user-project map and the project is in that user's
set; in every other case it returns `None`. -/
theorem check_grant_role_id_spec {W : Type} (st : AssignState) (sql : SqlDriver W)
    (rid : String) (uid gid did pid : Option String) (inh : Bool) :
    ((Assignment.check_grant_role_id st sql rid uid gid did pid inh).1
        = CheckResult.raisesRoleAssignmentNotFound
      ↔ (sql.check_grant_role_id rid uid gid did pid inh
            = CheckResult.raisesRoleAssignmentNotFound
          ∧ ¬ (rid = st.role_id ∧ memUser st uid = true ∧ memProject st uid pid = true)))
    ∧ ((Assignment.check_grant_role_id st sql rid uid gid did pid inh).1
        = CheckResult.returnsNone
      ↔ ¬ (sql.check_grant_role_id rid uid gid did pid inh
            = CheckResult.raisesRoleAssignmentNotFound
          ∧ ¬ (rid = st.role_id ∧ memUser st uid = true ∧ memProject st uid pid = true))) := by
  unfold Assignment.check_grant_role_id
  cases h : sql.check_grant_role_id rid uid gid did pid inh with
  | returnsNone => simp
  | raisesRoleAssignmentNotFound =>
    by_cases h1 : rid = st.role_id <;>
      by_cases h2 : memUser st uid = true <;>
        by_cases h3 : memProject st uid pid = true <;>
          simp [h1, h2, h3]

/-- Claim C2: `list_grant_role_ids` returns exactly the SQL driver's list
for the same arguments, with the default role id appended once at the end
when the user is a key of the user-project map and the project is in that
user's set, and unchanged otherwise. -/
theorem list_grant_role_ids_spec {W : Type} (st : AssignState) (sql : SqlDriver W)
    (uid gid did pid : Option String) (inh : Bool) :
    (Assignment.list_grant_role_ids st sql uid gid did pid inh).1
      = sql.list_grant_role_ids uid gid did pid inh
        ++ (if memUser st uid && memProject st uid pid then [st.role_id] else []) := by
  unfold Assignment.list_grant_role_ids
  by_cases h : (memUser st uid && memProject st uid pid) = true <;> simp [h]

/-- Claim C3: `list_role_assignments` returns the SQL driver's result for
the same arguments followed by exactly one synthetic record
`{role_id := default, user_id := u, project_id := p}` per pair (u, p) of
the user-project map (keys and per-user project lists being
duplicate-free, as Python dicts are); every entry of the underlying result
is preserved, in place, as the prefix. -/
theorem list_role_assignments_spec {W : Type} (st : AssignState) (sql : SqlDriver W)
    (role_id user_id : Option String) (group_ids : Option (List String))
    (domain_id : Option String) (project_ids : Option (List String))
    (inherited_to_projects : Option Bool)
    (hkeys : (st.userprojectmap.map Prod.fst).Nodup)
    (hproj : ∀ e ∈ st.userprojectmap, e.2.Nodup) :
    (Assignment.list_role_assignments st sql role_id user_id group_ids domain_id
        project_ids inherited_to_projects).1
      = sql.list_role_assignments role_id user_id group_ids domain_id project_ids
          inherited_to_projects ++ syntheticAssignments st
    ∧ ∀ u p, (syntheticAssignments st).count
          { role_id := st.role_id, user_id := u, project_id := p }
        = if memUser st (some u) && memProject st (some u) (some p) then 1 else 0 := by
  refine ⟨list_role_assignments_eq st sql role_id user_id group_ids domain_id
    project_ids inherited_to_projects, fun u p => ?_⟩
  rw [syntheticAssignments_eq_synthOf, count_synthOf st.role_id u p st.userprojectmap
    hkeys hproj]
  cases hf : st.userprojectmap.find? (fun e => e.1 = u) with
  | none =>
    have hmu : memUser st (some u) = false := by
      simp only [memUser, List.any_eq_false]
      intro e he
      simpa using List.find?_eq_none.mp hf e he
    simp [hmu]
  | some e =>
    have hmu : memUser st (some u) = true := by
      simp only [memUser, List.any_eq_true]
      exact ⟨e, List.mem_of_find?_eq_some hf, by simpa using List.find?_some hf⟩
    have hmp : memProject st (some u) (some p) = e.2.contains p := by
      simp [memProject, hf]
    by_cases hp : p ∈ e.2
    · simp [hmu, hmp, hp]
    · simp [hmu, hmp, hp]

/-- Claim C9: the synthetic records appended by `list_role_assignments`
ignore every filter parameter: whatever the `role_id`, `user_id`,
`group_ids`, `domain_id`, `project_ids` and `inherited_to_projects`
arguments, the part of the result past the SQL driver's entries is the
full list of synthetic records of the map. -/
theorem list_role_assignments_ignores_filters {W : Type} (st : AssignState)
    (sql : SqlDriver W) (role_id user_id : Option String)
    (group_ids : Option (List String)) (domain_id : Option String)
    (project_ids : Option (List String)) (inherited_to_projects : Option Bool) :
    ((Assignment.list_role_assignments st sql role_id user_id group_ids domain_id
        project_ids inherited_to_projects).1).drop
        (sql.list_role_assignments role_id user_id group_ids domain_id project_ids
          inherited_to_projects).length
      = syntheticAssignments st := by
  rw [list_role_assignments_eq, List.drop_left]

/-- Claim C10: `list_grant_role_ids` does not deduplicate: when the
(user, project) pair is in the map and the SQL driver's list already
contains the default role id, the returned list contains it at least
twice. -/
theorem list_grant_role_ids_no_dedup {W : Type} (st : AssignState) (sql : SqlDriver W)
    (uid gid did pid : Option String) (inh : Bool)
    (h1 : (memUser st uid && memProject st uid pid) = true)
    (h2 : st.role_id ∈ sql.list_grant_role_ids uid gid did pid inh) :
    2 ≤ ((Assignment.list_grant_role_ids st sql uid gid did pid inh).1).count
        st.role_id := by
  unfold Assignment.list_grant_role_ids
  simp only [h1, if_true]
  rw [List.count_append]
  have hpos : 1 ≤ (sql.list_grant_role_ids uid gid did pid inh).count st.role_id :=
    List.count_pos_iff.mpr h2
  have hone : ([st.role_id].count st.role_id) = 1 := by simp
  omega

end ReadTheorems

section WriteTheorems

/-- Claim C4: every write operation returns exactly the result of the SQL
driver's method called with the same arguments, with no transformation of
arguments or result. -/
theorem writes_pass_through {W : Type} (st : AssignState) (sql : SqlDriver W) :
    (∀ u t r, (Assignment.add_role_to_user_and_project st sql u t r).1
        = sql.add_role_to_user_and_project u t r)
    ∧ (∀ u t r, (Assignment.remove_role_from_user_and_project st sql u t r).1
        = sql.remove_role_from_user_and_project u t r)
    ∧ (∀ r u g d p i, (Assignment.create_grant st sql r u g d p i).1
        = sql.create_grant r u g d p i)
    ∧ (∀ r u g d p i, (Assignment.delete_grant st sql r u g d p i).1
        = sql.delete_grant r u g d p i)
    ∧ (∀ p, (Assignment.delete_project_assignments st sql p).1
        = sql.delete_project_assignments p)
    ∧ (∀ r, (Assignment.delete_role_assignments st sql r).1
        = sql.delete_role_assignments r)
    ∧ (∀ u, (Assignment.delete_user_assignments st sql u).1
        = sql.delete_user_assignments u)
    ∧ (∀ g, (Assignment.delete_group_assignments st sql g).1
        = sql.delete_group_assignments g)
    ∧ (∀ d, (Assignment.delete_domain_assignments st sql d).1
        = sql.delete_domain_assignments d) :=
  ⟨fun _ _ _ => rfl, fun _ _ _ => rfl, fun _ _ _ _ _ _ => rfl, fun _ _ _ _ _ _ => rfl,
    fun _ => rfl, fun _ => rfl, fun _ => rfl, fun _ => rfl, fun _ => rfl⟩

/-- Claim C5: the overlay is static: no operation of the driver, read or
write, modifies the user-project map or the stored default role id (each
method returns the instance state unchanged, hence both attributes
unchanged). -/
theorem state_never_changes {W : Type} (st : AssignState) (sql : SqlDriver W) :
    (∀ u g d p i, (Assignment.list_grant_role_ids st sql u g d p i).2 = st)
    ∧ (∀ r u g d p i, (Assignment.check_grant_role_id st sql r u g d p i).2 = st)
    ∧ (∀ r u g d p i, (Assignment.list_role_assignments st sql r u g d p i).2 = st)
    ∧ (∀ u t r, (Assignment.add_role_to_user_and_project st sql u t r).2 = st)
    ∧ (∀ u t r, (Assignment.remove_role_from_user_and_project st sql u t r).2 = st)
    ∧ (∀ r u g d p i, (Assignment.create_grant st sql r u g d p i).2 = st)
    ∧ (∀ r u g d p i, (Assignment.delete_grant st sql r u g d p i).2 = st)
    ∧ (∀ p, (Assignment.delete_project_assignments st sql p).2 = st)
    ∧ (∀ r, (Assignment.delete_role_assignments st sql r).2 = st)
    ∧ (∀ u, (Assignment.delete_user_assignments st sql u).2 = st)
    ∧ (∀ g, (Assignment.delete_group_assignments st sql g).2 = st)
    ∧ (∀ d, (Assignment.delete_domain_assignments st sql d).2 = st) := by
  refine ⟨?_, ?_, ?_, ?_, ?_, ?_, ?_, ?_, ?_, ?_, ?_, ?_⟩ <;> intros <;>
    first
    | rfl
    | (unfold Assignment.list_grant_role_ids; split <;> rfl)
    | (unfold Assignment.check_grant_role_id
       split
       · rfl
       · split
         · rfl
         · split
           · rfl
           · split <;> rfl)

end WriteTheorems

section ConstructionTheorems

/-- Claim C6, counterexample: as stated the claim fails, because two
distinct username keys may resolve to the same public id, in which case
the later entry overwrites the earlier one (`env6`/`file6`: key `a` lists
project `p`, but after key `b` overwrites `u1` the map holds the empty
set for it). -/
theorem claimC6_counterexample : ¬ claimC6 := by
  intro h
  obtain ⟨pids, hl, hq⟩ := h env6 file6 st6 (by decide) "a" ["p"] "u1"
    (by decide) (by decide)
  have h2 : lookupUPM st6.userprojectmap "u1" = some [] := by decide
  rw [h2] at hl
  injection hl with h3
  have : ("pid1" : String) ∈ pids :=
    (hq "pid1").mpr ⟨"p", by decide, by decide⟩
  rw [← h3] at this
  exact absurd this (List.not_mem_nil _)

/-- Claim C6, amended: construction reads the map file once and resolves
names to identifiers: for every username key of the file that resolves to
a (truthy) user id, PROVIDED no other username key of the file resolves to
the same public id, the file's keys are distinct, and resolved project ids
are non-empty strings, the constructed map associates that public id with
exactly the set of project ids obtained by resolving the project names
listed under that username (project names that fail to resolve contribute
nothing). -/
theorem construct_resolves_names (env : Env) (file : List (String × List String))
    (st : AssignState) (name : String) (ps : List String) (uid : String)
    (hc : construct env file = some st)
    (hmem : (name, ps) ∈ file)
    (huid : effectiveUserId env name = some uid)
    (hne : ∀ n p, env.get_project_by_name n = some p → p ≠ "")
    (hnodup : (file.map Prod.fst).Nodup)
    (hnocol : ∀ e ∈ file, e.1 ≠ name → effectiveUserId env e.1 ≠ some uid) :
    ∃ pids, lookupUPM st.userprojectmap uid = some pids
      ∧ ∀ q, q ∈ pids ↔ ∃ n ∈ ps, env.get_project_by_name n = some q := by
  obtain ⟨-, -, -, hupm⟩ := construct_elim env file st hc
  rw [hupm]
  exact buildUPM_lookup env hne file [] [] name ps uid
    (fun e he => absurd he (List.not_mem_nil _)) hnodup hmem huid hnocol

/-- Claim C7: a single fixed role is granted: the stored role id is the id
of the first role whose name matches the first configured default role
name, every synthetic record of the map carries it, every role id
`list_grant_role_ids` adds beyond the SQL driver's is it, and
`check_grant_role_id` swallows the SQL driver's `RoleAssignmentNotFound`
only for a query on it. -/
theorem default_role_fixed (env : Env) (file : List (String × List String))
    (st : AssignState) (hc : construct env file = some st) :
    (∃ rn r, env.default_roles.head? = some rn
      ∧ (env.roles.filter (fun x => x.name = rn)).head? = some r
      ∧ st.role_id = r.id)
    ∧ (∀ rec ∈ syntheticAssignments st, rec.role_id = st.role_id)
    ∧ (∀ (W : Type) (sql : SqlDriver W) (uid gid did pid : Option String) (inh : Bool),
        ∀ r ∈ (Assignment.list_grant_role_ids st sql uid gid did pid inh).1,
          r ∈ sql.list_grant_role_ids uid gid did pid inh ∨ r = st.role_id)
    ∧ (∀ (W : Type) (sql : SqlDriver W) (rid : String)
        (uid gid did pid : Option String) (inh : Bool),
        sql.check_grant_role_id rid uid gid did pid inh
          = CheckResult.raisesRoleAssignmentNotFound →
        (Assignment.check_grant_role_id st sql rid uid gid did pid inh).1
          = CheckResult.returnsNone →
        rid = st.role_id) := by
  obtain ⟨-, hr, -, -⟩ := construct_elim env file st hc
  refine ⟨?_, ?_, ?_, ?_⟩
  · unfold get_role_id at hr
    cases hn : env.default_roles.head? <;> rw [hn] at hr
    · exact absurd hr (by simp)
    · rename_i rn
      have hr' : (match (env.roles.filter (fun r => r.name = rn)).head? with
          | none => none
          | some r => some r.id) = some st.role_id := hr
      cases hf : (env.roles.filter (fun r => r.name = rn)).head? <;> rw [hf] at hr'
      · exact absurd hr' (by simp)
      · rename_i r0
        injection hr' with h
        exact ⟨rn, r0, rfl, hf, h.symm⟩
  · intro rec hrec
    rw [syntheticAssignments_eq_synthOf] at hrec
    exact ((mem_synthOf st.role_id rec st.userprojectmap).mp hrec).choose_spec.2.1
  · intro W sql uid gid did pid inh r hr'
    unfold Assignment.list_grant_role_ids at hr'
    by_cases hcond : (memUser st uid && memProject st uid pid) = true
    · rw [if_pos hcond] at hr'
      rcases List.mem_append.mp hr' with h | h
      · exact Or.inl h
      · exact Or.inr (List.mem_singleton.mp h)
    · rw [if_neg hcond] at hr'
      exact Or.inl hr'
  · intro W sql rid uid gid did pid inh hsql hres
    by_cases h : rid = st.role_id
    · exact h
    · exfalso
      unfold Assignment.check_grant_role_id at hres
      rw [hsql, if_pos h] at hres
      exact CheckResult.noConfusion hres

/-- Claim C8: a username key whose lookup raises `UserNotFound` is
silently skipped at construction: processing its entry leaves the built
map and cache untouched, and the constructed instance is the one built
from the remaining entries (hence no entry, and no synthetic grant, can
arise from it). -/
theorem user_not_found_skipped (env : Env) (user : String) (ps : List String)
    (rest : List (String × List String)) (m : UPMap) (cache : PCache)
    (h : env.get_user_by_name user = none) :
    buildUPM env ((user, ps) :: rest) m cache = buildUPM env rest m cache
    ∧ construct env ((user, ps) :: rest) = construct env rest := by
  have hg : get_user_id env user = none := by
    unfold get_user_id
    rw [h]
  have h1 : ∀ (m' : UPMap) (cache' : PCache),
      buildUPM env ((user, ps) :: rest) m' cache'
        = buildUPM env rest m' cache' := by
    intro m' cache'
    simp [buildUPM, hg]
  refine ⟨h1 m cache, ?_⟩
  unfold construct
  rw [h1]

end ConstructionTheorems

section Witnesses

/-- Witness for claim C3 at a concrete state and driver. -/
theorem list_role_assignments_spec_witness :
    (Assignment.list_role_assignments stW sqlW none none none none none none).1
      = sqlW.list_role_assignments none none none none none none
        ++ syntheticAssignments stW
    ∧ ∀ u p, (syntheticAssignments stW).count
          { role_id := stW.role_id, user_id := u, project_id := p }
        = if memUser stW (some u) && memProject stW (some u) (some p) then 1 else 0 :=
  list_role_assignments_spec stW sqlW none none none none none none
    (by decide) (by decide)

/-- Witness for claim C10 at a concrete state and driver. -/
theorem list_grant_role_ids_no_dedup_witness :
    2 ≤ ((Assignment.list_grant_role_ids stW sqlW (some "u1") none none (some "p1")
        false).1).count stW.role_id :=
  list_grant_role_ids_no_dedup stW sqlW (some "u1") none none (some "p1") false
    (by decide) (by decide)

/-- Witness for claim C6 (amended) at a concrete environment and file. -/
theorem construct_resolves_names_witness :
    ∃ pids, lookupUPM stC.userprojectmap "u1" = some pids
      ∧ ∀ q, q ∈ pids ↔ ∃ n ∈ ["proj"], envW.get_project_by_name n = some q :=
  construct_resolves_names envW [("alice", ["proj"])] stC "alice" ["proj"] "u1"
    (by decide) (by decide) (by decide)
    (by
      intro n p hnp
      by_cases hn : n = "proj"
      · subst hn
        have hp : (some "p1" : Option String) = some p := by
          simpa [envW] using hnp
        injection hp with hp'
        subst hp'
        decide
      · exact absurd hnp (by simp [envW, hn]))
    (by decide)
    (by
      intro e he hne2
      rw [List.mem_singleton] at he
      subst he
      exact absurd rfl hne2)

/-- Witness for claim C7 at a concrete environment and file. -/
theorem default_role_fixed_witness :
    (∃ rn r, envW.default_roles.head? = some rn
      ∧ (envW.roles.filter (fun x => x.name = rn)).head? = some r
      ∧ stC.role_id = r.id)
    ∧ (∀ rec ∈ syntheticAssignments stC, rec.role_id = stC.role_id)
    ∧ (∀ (W : Type) (sql : SqlDriver W) (uid gid did pid : Option String) (inh : Bool),
        ∀ r ∈ (Assignment.list_grant_role_ids stC sql uid gid did pid inh).1,
          r ∈ sql.list_grant_role_ids uid gid did pid inh ∨ r = stC.role_id)
    ∧ (∀ (W : Type) (sql : SqlDriver W) (rid : String)
        (uid gid did pid : Option String) (inh : Bool),
        sql.check_grant_role_id rid uid gid did pid inh
          = CheckResult.raisesRoleAssignmentNotFound →
        (Assignment.check_grant_role_id stC sql rid uid gid did pid inh).1
          = CheckResult.returnsNone →
        rid = stC.role_id) :=
  default_role_fixed envW [("alice", ["proj"])] stC (by decide)

/-- Witness for claim C8 at a concrete environment and file. -/
theorem user_not_found_skipped_witness :
    buildUPM envW [("bob", ["proj"])] [] [] = buildUPM envW [] [] []
    ∧ construct envW [("bob", ["proj"])] = construct envW [] :=
  user_not_found_skipped envW "bob" ["proj"] [] [] [] (by decide)

end Witnesses

end KJA
